import Mathlib

/-!
# marco-docker: the domain-to-backend mapping of `main.go`

A shallow embedding of `src/github.com/nickschuch/marco-docker/main.go`.

Modelling conventions.

* A Go `string` is a Lean `String`; the two library calls the program makes,
  `strings.Contains` and `strings.Split` with a one-character separator, are
  defined on the characters of the string.
* An index expression `xs[i]` is `xs[i]?`: a function that contains one returns
  an `Option`, and `none` is the run-time panic `index out of range` (or, for a
  pointer, the nil dereference). Nothing in `main.go` recovers from a panic.
* A Go result pair `(value, error)` is a Lean pair whose second component is an
  `Option Error`, `none` being Go's `nil` error.
* A Go `map` is the list of its entries. For the map a `range` statement walks
  (`NetworkSettings.Ports`), the list is in the order the loop visits the
  entries; the language leaves that order to the run time, so two lists that are
  permutations of each other stand for the same map (`sameSnapshot`). `Push`
  walks the domain map; the order it visits the entries in is its parameter
  `visit`.
* The command-line flags (`cliMarco`, `cliEndpoint`, `cliPorts`, `cliEnv`,
  `cliFrequency`) are the fields of a `Flags` record passed to every function
  that reads one.
-/

namespace MarcoDocker

/-! ## The `strings` package -/

/-- Characters of `strings.Contains(s, substr)`: `substr` starts at some
position of `s`. -/
def containsChars : List Char → List Char → Bool
  | [], substr => substr.isEmpty
  | c :: cs, substr => substr.isPrefixOf (c :: cs) || containsChars cs substr

/-- Go `strings.Contains(s, substr)`. -/
def Contains (s substr : String) : Bool :=
  containsChars s.data substr.data

/-- Characters of `strings.Split(s, sep)` for a separator of one character:
the pieces of `s` between consecutive separators, one more than there are
separators. -/
def splitChars (sep : Char) : List Char → List (List Char)
  | [] => [[]]
  | c :: cs =>
    if c = sep then [] :: splitChars sep cs
    else
      match splitChars sep cs with
      | [] => [[c]]
      | piece :: pieces => (c :: piece) :: pieces

/-- Go `strings.Split(s, sep)` where `sep` is a string of one character. -/
def Split (s : String) (sep : Char) : List String :=
  (splitChars sep s.data).map String.mk

/-! ## Data -/

/-- The type `error`; `errors.New` keeps the message. -/
abbrev Error := String

/-- Fields of `dockerclient.PortBinding` the program reads. -/
structure PortBinding where
  HostIp : String
  HostPort : String
deriving DecidableEq, Repr

/-- Fields of `dockerclient.ContainerConfig` the program reads. -/
structure ContainerConfig where
  Env : List String
deriving DecidableEq, Repr

/-- The `NetworkSettings` of a container: `Ports` is a
`map[string][]PortBinding`, here its entries in the order `range` visits them. -/
structure NetworkSettings where
  Ports : List (String × List PortBinding)
deriving DecidableEq, Repr

/-- Fields of `dockerclient.ContainerInfo` the program reads. -/
structure ContainerInfo where
  Config : ContainerConfig
  NetworkSettings : NetworkSettings
deriving DecidableEq, Repr

/-- Fields of `dockerclient.Container` the program reads. -/
structure Container where
  Id : String
deriving DecidableEq, Repr

/-- The methods of `*dockerclient.DockerClient` the program calls, each
returning the Go pair `(value, error)`; the pointer `InspectContainer` returns
may be nil. -/
structure DockerClient where
  ListContainers : List Container × Option Error
  InspectContainer : String → Option ContainerInfo × Option Error

/-- The record `marco.Backend`; `Type_` is its field `Type`. -/
structure Backend where
  Type_ : String
  Domain : String
  List : List String
deriving DecidableEq, Repr

/-- The command-line flags of `main.go`. -/
structure Flags where
  cliMarco : String
  cliEndpoint : String
  cliPorts : String
  cliEnv : String
  cliFrequency : Int
deriving DecidableEq, Repr

/-- The flags at their defaults. -/
def defaultFlags : Flags :=
  { cliMarco := "http://localhost:81"
    cliEndpoint := "unix:///var/run/docker.sock"
    cliPorts := "80,8080,2368,8983"
    cliEnv := "DOMAIN"
    cliFrequency := 15 }

/-- The `map[string][]string` that `getList` builds: its entries, a key at
most once. -/
abbrev DomainMapping := List (String × List String)

/-- The map index expression `list[d]`: the value stored under `d`, the nil
slice when `d` is not a key. -/
def mapIndex : DomainMapping → String → List String
  | [], _ => []
  | (k, v) :: rest, d => if k = d then v else mapIndex rest d

/-- The map assignment `list[d] = v`. -/
def mapAssign : DomainMapping → String → List String → DomainMapping
  | [], d, v => [(d, v)]
  | (k, w) :: rest, d, v =>
    if k = d then (k, v) :: rest else (k, w) :: mapAssign rest d v

/-- The keys of a mapping. -/
def mapKeys (list : DomainMapping) : List String :=
  list.map Prod.fst

/-! ## The functions of `main.go` -/

/-- Constant `name`. -/
def name : String := "docker"

/-- Function `getContainerEnv` (main.go:124). -/
def getContainerEnv (key : String) : List String → Option String
  | [] => some ""
  | env :: envs =>
    if Contains env key then
      let envValue := Split env '='
      envValue[1]?
    else getContainerEnv key envs

/-- Function `getPort` (main.go:134). -/
def getPort (exposed : String) : Option String :=
  let port := Split exposed '/'
  port[0]?

/-- Function `getProxyUrl` (main.go:139). -/
def getProxyUrl (binding : List PortBinding) : Option String :=
  if binding.length ≤ 0 then some ""
  else do
    let b0 ← binding[0]?
    let port := b0.HostPort
    let ip := b0.HostIp
    let ip := if ip = "0.0.0.0" then "127.0.0.1" else ip
    some ("http://" ++ ip ++ ":" ++ port)

/-- Function `stringInSlice` (main.go:156). -/
def stringInSlice (a : String) : List String → Bool
  | [] => false
  | b :: list => if b = a then true else stringInSlice a list

/-- The loop `for portString, portObject := range container.NetworkSettings.Ports`
(main.go:110-118), over the entries in visiting order. -/
def rangePorts (flags : Flags) (envDomain : String) :
    List (String × List PortBinding) → DomainMapping → Option DomainMapping
  | [], list => some list
  | (portString, portObject) :: rest, list => do
    let port ← getPort portString
    if Contains flags.cliPorts port then
      let url ← getProxyUrl portObject
      if url ≠ "" then
        rangePorts flags envDomain rest
          (mapAssign list envDomain (mapIndex list envDomain ++ [url]))
      else rangePorts flags envDomain rest list
    else rangePorts flags envDomain rest list

/-- The body of the container loop after the inspection (main.go:97-118). -/
def containerBody (flags : Flags) (container : ContainerInfo)
    (list : DomainMapping) : Option DomainMapping := do
  let envDomain ← getContainerEnv flags.cliEnv container.Config.Env
  if envDomain.length ≤ 0 then some list
  else rangePorts flags envDomain container.NetworkSettings.Ports list

/-- The loop `for _, c := range containers` (main.go:94-119). The error of
`InspectContainer` is assigned to the blank identifier; `container.Config`
dereferences the pointer it returned. -/
def rangeContainers (flags : Flags) (dockerClient : DockerClient) :
    List Container → DomainMapping → Option DomainMapping
  | [], list => some list
  | c :: rest, list => do
    let container ← (dockerClient.InspectContainer c.Id).1
    let list ← containerBody flags container list
    rangeContainers flags dockerClient rest list

/-- Function `getList` (main.go:80); `newDockerClient` is
`dockerclient.NewDockerClient`, called with `*cliEndpoint`. -/
def getList (flags : Flags)
    (newDockerClient : String → Option DockerClient × Option Error) :
    Option (DomainMapping × Option Error) :=
  let list : DomainMapping := []
  match newDockerClient flags.cliEndpoint with
  | (_, some err) => some (list, some err)
  | (dockerClient, none) =>
    match dockerClient with
    | none => none
    | some dockerClient =>
      match dockerClient.ListContainers with
      | (_, some err) => some (list, some err)
      | (containers, none) =>
        (rangeContainers flags dockerClient containers list).map
          fun list => (list, none)

/-- The mapping builder: the container loop of `getList` (main.go:94-119) run
over containers whose inspection has returned `snapshots`, from the empty map. -/
def buildFrom (flags : Flags) :
    List ContainerInfo → DomainMapping → Option DomainMapping
  | [], list => some list
  | container :: rest, list => do
    let list ← containerBody flags container list
    buildFrom flags rest list

/-- The mapping builder started, as `getList` starts it, from
`make(map[string][]string)`. -/
def build (flags : Flags) (snapshots : List ContainerInfo) :
    Option DomainMapping :=
  buildFrom flags snapshots []

/-- The loop `for d, l := range list` of `Push` (main.go:62-69), over the
entries of the map in the order the loop visits them. -/
def rangeList : DomainMapping → List Backend → List Backend
  | [], b => b
  | (d, l) :: rest, b =>
    rangeList rest (b ++ [{ Type_ := name, Domain := d, List := l }])

/-- What a call of `Push` did: the arguments of every `marco.Send` it made,
and the error it returned. -/
structure PushResult where
  sent : List (List Backend × String)
  err : Option Error
deriving DecidableEq, Repr

/-- Function `Push` (main.go:47); `send` is `marco.Send`. The parameter `m` is
not read: the destination is `*cliMarco`. `list` is a Go map and the order in
which `range` visits its entries is left to the run time: `visit` is that
order, a permutation of the entries. -/
def Push (flags : Flags)
    (newDockerClient : String → Option DockerClient × Option Error)
    (visit : DomainMapping → DomainMapping)
    (send : List Backend → String → Option Error) (_m : String) :
    Option PushResult :=
  match getList flags newDockerClient with
  | none => none
  | some (_, some err) => some { sent := [], err := some err }
  | some (list, none) =>
    if list.length ≤ 0 then
      some { sent := [], err := some "Empty list of environments." }
    else
      let b := rangeList (visit list) []
      some { sent := [(b, flags.cliMarco)], err := send b flags.cliMarco }

/-! ## Specification vocabulary -/

/-- The bare port of a port spec: the characters before its first `/`. -/
def barePort (exposed : String) : String :=
  String.mk (exposed.data.takeWhile fun c => decide (c ≠ '/'))

/-- The URL the first binding of a list stands for. -/
def bindingUrl (b : PortBinding) : String :=
  "http://" ++ (if b.HostIp = "0.0.0.0" then "127.0.0.1" else b.HostIp) ++ ":"
    ++ b.HostPort

/-- The URL one entry of a port map contributes, if any: its bare port occurs in
the allowlist and its binding list has a first element. -/
def entryUrl (flags : Flags) (entry : String × List PortBinding) : Option String :=
  if Contains flags.cliPorts (barePort entry.1) then entry.2.head?.map bindingUrl
  else none

/-- The URLs the entries of a port map contribute, in visiting order. -/
def portUrls (flags : Flags) (ports : List (String × List PortBinding)) :
    List String :=
  ports.filterMap (entryUrl flags)

/-- The statement `list[d] = append(list[d], url)` for each of `urls` in turn. -/
def appendUrls (list : DomainMapping) (d : String) : List String → DomainMapping
  | [] => list
  | url :: urls => appendUrls (mapAssign list d (mapIndex list d ++ [url])) d urls

/-- What one container contributes: its domain and the URLs appended under it
(none when the domain is empty); `none` when `getContainerEnv` panics. -/
def contribution (flags : Flags) (container : ContainerInfo) :
    Option (String × List String) :=
  (getContainerEnv flags.cliEnv container.Config.Env).map fun envDomain =>
    (envDomain,
      if envDomain.length ≤ 0 then []
      else portUrls flags container.NetworkSettings.Ports)

/-- The contributions of a list of containers, in order. -/
def contributions (flags : Flags) :
    List ContainerInfo → Option (List (String × List String))
  | [] => some []
  | container :: rest => do
    let p ← contribution flags container
    let ps ← contributions flags rest
    some (p :: ps)

/-- All contributions appended to a mapping, in order. -/
def applyAll (list : DomainMapping) : List (String × List String) → DomainMapping
  | [] => list
  | p :: ps => applyAll (appendUrls list p.1 p.2) ps

/-- The URLs a list of contributions holds for domain `d`, in order. -/
def urlsFor (d : String) : List (String × List String) → List String
  | [] => []
  | p :: ps => if p.1 = d then p.2 ++ urlsFor d ps else urlsFor d ps

/-- The URLs each contribution holds for domain `d`: one block per container,
empty for a container of another domain. -/
def blocksFor (d : String) (ps : List (String × List String)) : List (List String) :=
  ps.map fun p => if p.1 = d then p.2 else []

/-- The URLs one container contributes under domain `d`: the list the builder
files under `d` when run on that container alone (empty when it panics). -/
def containerUrls (flags : Flags) (container : ContainerInfo) (d : String) :
    List String :=
  match build flags [container] with
  | some m => mapIndex m d
  | none => []

/-- Two snapshots of one container state: the same environment list and the
same port map, whose entries a `range` loop may visit in either order. -/
def sameSnapshot (a b : ContainerInfo) : Prop :=
  a.Config.Env = b.Config.Env ∧ a.NetworkSettings.Ports.Perm b.NetworkSettings.Ports

/-- Snapshot `container` produces URL `url` under domain `d`: `d` is the domain
`getContainerEnv` extracts, and some entry of the port map passes the allowlist
check and has `url` as its proxy URL. -/
def produces (flags : Flags) (container : ContainerInfo) (d url : String) : Prop :=
  getContainerEnv flags.cliEnv container.Config.Env = some d ∧
    ∃ entry ∈ container.NetworkSettings.Ports, ∃ port,
      getPort entry.1 = some port ∧ Contains flags.cliPorts port = true ∧
        getProxyUrl entry.2 = some url

/-- A snapshot with the given environment and port map. -/
def snapshot (env : List String) (ports : List (String × List PortBinding)) :
    ContainerInfo :=
  { Config := { Env := env }, NetworkSettings := { Ports := ports } }

/-! ## Concrete inputs -/

/-- The flags with the allowlist `443`. -/
def flags443 : Flags :=
  { defaultFlags with cliPorts := "443" }

/-- A container of domain `example.com` whose port `80/tcp` is bound to host
port 8000 on the wildcard address. -/
def web8000 : ContainerInfo :=
  snapshot ["DOMAIN=example.com"] [("80/tcp", [⟨"0.0.0.0", "8000"⟩])]

/-- A second container of domain `example.com`, bound to host port 8001. -/
def web8001 : ContainerInfo :=
  snapshot ["DOMAIN=example.com"] [("80/tcp", [⟨"0.0.0.0", "8001"⟩])]

/-- A container without the domain variable. -/
def noDomain : ContainerInfo :=
  snapshot ["PATH=/usr/bin"] [("80/tcp", [⟨"0.0.0.0", "8002"⟩])]

/-- A container with two qualifying port specs, `80/tcp` visited first. -/
def twoPorts : ContainerInfo :=
  snapshot ["DOMAIN=example.com"]
    [("80/tcp", [⟨"0.0.0.0", "8000"⟩]), ("8080/tcp", [⟨"0.0.0.0", "8001"⟩])]

/-- The container `twoPorts`, its port map visited in the other order. -/
def twoPortsSwapped : ContainerInfo :=
  snapshot ["DOMAIN=example.com"]
    [("8080/tcp", [⟨"0.0.0.0", "8001"⟩]), ("80/tcp", [⟨"0.0.0.0", "8000"⟩])]

/-- A container whose environment holds the entry `DOMAIN`, with no `=`. -/
def bareDomain : ContainerInfo :=
  snapshot ["DOMAIN"] [("80/tcp", [⟨"0.0.0.0", "8000"⟩])]

/-- A container of domain `a.com`. -/
def webA : ContainerInfo :=
  snapshot ["DOMAIN=a.com"] [("80/tcp", [⟨"0.0.0.0", "8000"⟩])]

/-- A container of domain `b.com`. -/
def webB : ContainerInfo :=
  snapshot ["DOMAIN=b.com"] [("80/tcp", [⟨"0.0.0.0", "8001"⟩])]

/-- A Docker client that lists the containers `c1` and `c2`, whose inspections
return `webA` and `webB`. -/
def twoDomainsClient : DockerClient :=
  { ListContainers := ([⟨"c1"⟩, ⟨"c2"⟩], none)
    InspectContainer := fun id => (some (if id = "c1" then webA else webB), none) }

/-- A Docker client that lists one container, whose inspection returns
`bareDomain`. -/
def bareDomainClient : DockerClient :=
  { ListContainers := ([⟨"c1"⟩], none)
    InspectContainer := fun _ => (some bareDomain, none) }

/-- A Docker client that lists one container and fails to inspect it: the
pointer is nil and the error is set. -/
def inspectFails : DockerClient :=
  { ListContainers := ([⟨"c1"⟩], none)
    InspectContainer := fun _ => (none, some "no such container") }

/-- A Docker client whose listing fails. -/
def listFails : DockerClient :=
  { ListContainers := ([], some "cannot connect")
    InspectContainer := fun _ => (none, some "no such container") }

/-! ## Theorems -/

/-! ### `strings.Split` and the two parsers built on it -/

theorem splitChars_ne_nil (sep : Char) (s : List Char) : splitChars sep s ≠ [] := by
  induction s with
  | nil => simp [splitChars]
  | cons c cs ih =>
    unfold splitChars
    split
    · simp
    · split <;> simp

theorem splitChars_head (sep : Char) (s : List Char) :
    (splitChars sep s)[0]? = some (s.takeWhile fun c => decide (c ≠ sep)) := by
  induction s with
  | nil => simp [splitChars]
  | cons c cs ih =>
    unfold splitChars
    by_cases h : c = sep
    · simp [h]
    · simp only [h, if_false]
      split
      · next hnil => exact absurd hnil (splitChars_ne_nil sep cs)
      · next piece pieces hcons =>
        rw [hcons] at ih
        simp at ih
        simp [List.takeWhile, h, ih]

theorem getPort_eq (exposed : String) : getPort exposed = some (barePort exposed) := by
  simp [getPort, Split, barePort, splitChars_head]

theorem getProxyUrl_nil : getProxyUrl [] = some "" := by
  simp [getProxyUrl]

theorem getProxyUrl_cons (b : PortBinding) (rest : List PortBinding) :
    getProxyUrl (b :: rest) = some (bindingUrl b) := by
  simp [getProxyUrl, bindingUrl]

theorem bindingUrl_ne_empty (b : PortBinding) : bindingUrl b ≠ "" := by
  intro h
  have := congrArg String.length h
  simp [bindingUrl, String.length_append] at this
  exact absurd this.1.2 (by decide)

theorem getContainerEnv_no_match (key : String) (envs : List String)
    (h : ∀ env ∈ envs, Contains env key = false) :
    getContainerEnv key envs = some "" := by
  induction envs with
  | nil => rfl
  | cons env envs ih =>
    have h1 := h env (List.mem_cons_self _ _)
    have h2 : ∀ e ∈ envs, Contains e key = false :=
      fun e he => h e (List.mem_cons_of_mem _ he)
    simp [getContainerEnv, h1, ih h2]

theorem getContainerEnv_first_match (key : String) (pre post : List String)
    (env : String) (hpre : ∀ e ∈ pre, Contains e key = false)
    (henv : Contains env key = true) :
    getContainerEnv key (pre ++ env :: post) = (Split env '=')[1]? := by
  induction pre with
  | nil => simp [getContainerEnv, henv]
  | cons e pre ih =>
    have h1 := hpre e (List.mem_cons_self _ _)
    have h2 : ∀ x ∈ pre, Contains x key = false :=
      fun x hx => hpre x (List.mem_cons_of_mem _ hx)
    simp [getContainerEnv, h1, ih h2]

/-! ### The port loop -/

theorem rangePorts_cons (flags : Flags) (d : String)
    (entry : String × List PortBinding) (rest : List (String × List PortBinding))
    (list : DomainMapping) :
    rangePorts flags d (entry :: rest) list =
      rangePorts flags d rest
        (match entryUrl flags entry with
          | some url => mapAssign list d (mapIndex list d ++ [url])
          | none => list) := by
  obtain ⟨spec, bs⟩ := entry
  simp only [rangePorts, getPort_eq, entryUrl, Option.bind_eq_bind, Option.some_bind]
  by_cases hc : Contains flags.cliPorts (barePort spec) = true
  · cases bs with
    | nil => simp [hc, getProxyUrl_nil]
    | cons b bs => simp [hc, getProxyUrl_cons, bindingUrl_ne_empty]
  · simp [hc]

theorem rangePorts_eq (flags : Flags) (d : String)
    (ports : List (String × List PortBinding)) (list : DomainMapping) :
    rangePorts flags d ports list = some (appendUrls list d (portUrls flags ports)) := by
  induction ports generalizing list with
  | nil => rfl
  | cons entry rest ih =>
    rw [rangePorts_cons, ih]
    cases h : entryUrl flags entry <;> simp [portUrls, List.filterMap_cons, h, appendUrls]

theorem containerBody_eq (flags : Flags) (container : ContainerInfo)
    (list : DomainMapping) :
    containerBody flags container list =
      (contribution flags container).map fun p => appendUrls list p.1 p.2 := by
  unfold containerBody contribution
  cases getContainerEnv flags.cliEnv container.Config.Env with
  | none => rfl
  | some envDomain =>
    by_cases h : envDomain.length = 0
    · simp [h, appendUrls]
    · simp [h, rangePorts_eq]

theorem buildFrom_eq (flags : Flags) (snapshots : List ContainerInfo)
    (list : DomainMapping) :
    buildFrom flags snapshots list =
      (contributions flags snapshots).map (applyAll list) := by
  induction snapshots generalizing list with
  | nil => rfl
  | cons c rest ih =>
    simp only [buildFrom, contributions, containerBody_eq, Option.bind_eq_bind]
    cases contribution flags c with
    | none => rfl
    | some p =>
      simp only [Option.map_some', Option.some_bind, ih]
      cases contributions flags rest <;> simp [applyAll]

theorem build_eq (flags : Flags) (snapshots : List ContainerInfo) :
    build flags snapshots = (contributions flags snapshots).map (applyAll []) :=
  buildFrom_eq flags snapshots []

theorem buildFrom_append (flags : Flags) (xs ys : List ContainerInfo)
    (list : DomainMapping) :
    buildFrom flags (xs ++ ys) list =
      (buildFrom flags xs list).bind (buildFrom flags ys) := by
  induction xs generalizing list with
  | nil => rfl
  | cons c rest ih =>
    simp only [List.cons_append, buildFrom, Option.bind_eq_bind]
    cases containerBody flags c list with
    | none => rfl
    | some l => simp [ih]

theorem contributions_append (flags : Flags) (xs ys : List ContainerInfo) :
    contributions flags (xs ++ ys) =
      (contributions flags xs).bind fun a =>
        (contributions flags ys).map fun b => a ++ b := by
  induction xs with
  | nil => cases h : contributions flags ys <;> simp [h, contributions]
  | cons c rest ih =>
    show contributions flags (c :: (rest ++ ys)) = _
    simp only [contributions, Option.bind_eq_bind, ih]
    cases contribution flags c with
    | none => rfl
    | some p =>
      cases contributions flags rest with
      | none => rfl
      | some a => cases contributions flags ys <;> simp

theorem splitChars_second (sep : Char) (a b : List Char) (ha : sep ∉ a) :
    (splitChars sep (a ++ sep :: b))[1]? =
      some (b.takeWhile fun c => decide (c ≠ sep)) := by
  induction a with
  | nil => simp [splitChars, splitChars_head]
  | cons c a ih =>
    have hc : c ≠ sep := fun h => ha (h ▸ List.mem_cons_self _ _)
    have ha' : sep ∉ a := fun h => ha (List.mem_cons_of_mem _ h)
    show (splitChars sep (c :: (a ++ sep :: b)))[1]? = _
    rw [← ih ha']
    simp only [splitChars, hc, if_false]
    split
    · next hnil => exact absurd hnil (splitChars_ne_nil sep _)
    · next piece pieces hcons => simp [hcons]

/-- What `getContainerEnv` returns for the first entry that contains the key,
when that entry reads `a=b` with no `=` in `a`: the characters of `b` before
its first `=`. -/
theorem getContainerEnv_value (key : String) (pre post : List String)
    (a b : List Char) (hpre : ∀ e ∈ pre, Contains e key = false)
    (henv : Contains (String.mk (a ++ '=' :: b)) key = true) (ha : '=' ∉ a) :
    getContainerEnv key (pre ++ String.mk (a ++ '=' :: b) :: post) =
      some (String.mk (b.takeWhile fun c => decide (c ≠ '='))) := by
  rw [getContainerEnv_first_match key pre post _ hpre henv]
  simp [Split, splitChars_second '=' a b ha]

/-! ### The map operations -/

theorem mapIndex_mapAssign (list : DomainMapping) (d d' : String) (v : List String) :
    mapIndex (mapAssign list d v) d' = if d = d' then v else mapIndex list d' := by
  induction list with
  | nil => simp [mapAssign, mapIndex]
  | cons e rest ih =>
    obtain ⟨k, w⟩ := e
    by_cases hk : k = d
    · subst hk
      by_cases hd : k = d' <;> simp [mapAssign, mapIndex, hd]
    · by_cases hd : k = d'
      · subst hd
        simp [mapAssign, mapIndex, hk, Ne.symm hk]
      · simp [mapAssign, mapIndex, hk, hd, ih]

theorem mem_mapAssign (list : DomainMapping) (d : String) (v : List String)
    (e : String × List String) (he : e ∈ mapAssign list d v) :
    e ∈ list ∨ e = (d, v) := by
  induction list with
  | nil => simpa [mapAssign] using he
  | cons x rest ih =>
    obtain ⟨k, w⟩ := x
    by_cases hk : k = d
    · subst hk
      simp only [mapAssign, if_true, List.mem_cons] at he
      rcases he with he | he
      · exact Or.inr he
      · exact Or.inl (List.mem_cons_of_mem _ he)
    · simp only [mapAssign, hk, if_false, List.mem_cons] at he
      rcases he with he | he
      · exact Or.inl (he ▸ List.mem_cons_self _ _)
      · rcases ih he with h | h
        · exact Or.inl (List.mem_cons_of_mem _ h)
        · exact Or.inr h

theorem mem_mapIndex (list : DomainMapping) (d u : String) (hu : u ∈ mapIndex list d) :
    ∃ v, (d, v) ∈ list ∧ u ∈ v := by
  induction list with
  | nil => simp [mapIndex] at hu
  | cons x rest ih =>
    obtain ⟨k, w⟩ := x
    by_cases hk : k = d
    · subst hk
      simp only [mapIndex, if_true] at hu
      exact ⟨w, List.mem_cons_self _ _, hu⟩
    · simp only [mapIndex, hk, if_false] at hu
      obtain ⟨v, hv, huv⟩ := ih hu
      exact ⟨v, List.mem_cons_of_mem _ hv, huv⟩

theorem mem_mapKeys_mapAssign (list : DomainMapping) (d d' : String) (v : List String) :
    d' ∈ mapKeys (mapAssign list d v) ↔ d' ∈ mapKeys list ∨ d' = d := by
  induction list with
  | nil => simp [mapAssign, mapKeys]
  | cons x rest ih =>
    obtain ⟨k, w⟩ := x
    simp only [mapKeys] at ih
    by_cases hk : k = d
    · subst hk
      simp [mapAssign, mapKeys]
      tauto
    · simp [mapAssign, mapKeys, hk, ih]
      tauto

theorem mapIndex_appendUrls (list : DomainMapping) (d d' : String) (urls : List String) :
    mapIndex (appendUrls list d urls) d' =
      if d = d' then mapIndex list d' ++ urls else mapIndex list d' := by
  induction urls generalizing list with
  | nil => simp [appendUrls]
  | cons u urls ih =>
    rw [appendUrls, ih, mapIndex_mapAssign]
    by_cases h : d = d'
    · subst h; simp
    · simp [h]

theorem mem_mapKeys_appendUrls (list : DomainMapping) (d d' : String)
    (urls : List String) :
    d' ∈ mapKeys (appendUrls list d urls) ↔
      d' ∈ mapKeys list ∨ (d' = d ∧ urls ≠ []) := by
  induction urls generalizing list with
  | nil => simp [appendUrls]
  | cons u urls ih =>
    rw [appendUrls, ih, mem_mapKeys_mapAssign]
    simp
    tauto

theorem mapIndex_applyAll (list : DomainMapping) (d : String)
    (ps : List (String × List String)) :
    mapIndex (applyAll list ps) d = mapIndex list d ++ urlsFor d ps := by
  induction ps generalizing list with
  | nil => simp [applyAll, urlsFor]
  | cons p ps ih =>
    rw [applyAll, ih, mapIndex_appendUrls]
    by_cases h : p.1 = d <;> simp [urlsFor, h]

theorem mem_mapKeys_applyAll (list : DomainMapping) (d : String)
    (ps : List (String × List String)) :
    d ∈ mapKeys (applyAll list ps) ↔
      d ∈ mapKeys list ∨ ∃ p ∈ ps, p.1 = d ∧ p.2 ≠ [] := by
  induction ps generalizing list with
  | nil => simp [applyAll]
  | cons p ps ih =>
    rw [applyAll, ih, mem_mapKeys_appendUrls]
    simp only [List.mem_cons, exists_eq_or_imp]
    constructor
    · rintro ((h | ⟨h1, h2⟩) | h)
      · exact Or.inl h
      · exact Or.inr (Or.inl ⟨h1.symm, h2⟩)
      · exact Or.inr (Or.inr h)
    · rintro (h | ⟨h1, h2⟩ | h)
      · exact Or.inl (Or.inl h)
      · exact Or.inl (Or.inr ⟨h1.symm, h2⟩)
      · exact Or.inr h

theorem urlsFor_append (d : String) (a b : List (String × List String)) :
    urlsFor d (a ++ b) = urlsFor d a ++ urlsFor d b := by
  induction a with
  | nil => rfl
  | cons p a ih =>
    show urlsFor d (p :: (a ++ b)) = _
    by_cases h : p.1 = d <;> simp [urlsFor, h, ih]

/-- Entries keep a property of their URLs when URLs with the property are
appended under `d`. -/
theorem entries_appendUrls (P : String → String → Prop) (list : DomainMapping)
    (d : String) (urls : List String)
    (hinv : ∀ e ∈ list, e.2 ≠ [] ∧ ∀ u ∈ e.2, P e.1 u)
    (hurls : ∀ u ∈ urls, P d u) :
    ∀ e ∈ appendUrls list d urls, e.2 ≠ [] ∧ ∀ u ∈ e.2, P e.1 u := by
  induction urls generalizing list with
  | nil => simpa [appendUrls] using hinv
  | cons url urls ih =>
    rw [appendUrls]
    apply ih
    · intro e he
      rcases mem_mapAssign _ _ _ _ he with h | h
      · exact hinv e h
      · subst h
        refine ⟨by simp, ?_⟩
        intro u hu
        rcases List.mem_append.1 hu with h1 | h1
        · obtain ⟨v, hv, huv⟩ := mem_mapIndex _ _ _ h1
          exact (hinv _ hv).2 u huv
        · have : u = url := by simpa using h1
          exact this ▸ hurls url (List.mem_cons_self _ _)
    · exact fun u hu => hurls u (List.mem_cons_of_mem _ hu)

theorem entries_applyAll (P : String → String → Prop) (list : DomainMapping)
    (ps : List (String × List String))
    (hinv : ∀ e ∈ list, e.2 ≠ [] ∧ ∀ u ∈ e.2, P e.1 u)
    (hps : ∀ p ∈ ps, ∀ u ∈ p.2, P p.1 u) :
    ∀ e ∈ applyAll list ps, e.2 ≠ [] ∧ ∀ u ∈ e.2, P e.1 u := by
  induction ps generalizing list with
  | nil => simpa [applyAll] using hinv
  | cons p ps ih =>
    rw [applyAll]
    apply ih
    · exact entries_appendUrls P list p.1 p.2 hinv (hps p (List.mem_cons_self _ _))
    · exact fun q hq => hps q (List.mem_cons_of_mem _ hq)

theorem nodup_mapAssign (list : DomainMapping) (d : String) (v : List String)
    (h : (mapKeys list).Nodup) : (mapKeys (mapAssign list d v)).Nodup := by
  induction list with
  | nil => simp [mapAssign, mapKeys]
  | cons x rest ih =>
    obtain ⟨k, w⟩ := x
    have hk : k ∉ mapKeys rest := (List.nodup_cons.1 h).1
    have hrest : (mapKeys rest).Nodup := (List.nodup_cons.1 h).2
    by_cases hkd : k = d
    · simpa [mapAssign, hkd, mapKeys] using h
    · simp only [mapAssign, hkd, if_false]
      show (k :: mapKeys (mapAssign rest d v)).Nodup
      refine List.nodup_cons.2 ⟨?_, ih hrest⟩
      rw [mem_mapKeys_mapAssign]
      exact fun h' => h'.elim hk hkd

theorem nodup_appendUrls (list : DomainMapping) (d : String) (urls : List String)
    (h : (mapKeys list).Nodup) : (mapKeys (appendUrls list d urls)).Nodup := by
  induction urls generalizing list with
  | nil => exact h
  | cons u urls ih => exact ih _ (nodup_mapAssign list d _ h)

theorem nodup_applyAll (list : DomainMapping) (ps : List (String × List String))
    (h : (mapKeys list).Nodup) : (mapKeys (applyAll list ps)).Nodup := by
  induction ps generalizing list with
  | nil => exact h
  | cons p ps ih => exact ih _ (nodup_appendUrls list p.1 p.2 h)

/-- The mapping the builder returns has each key once: it is a map. -/
theorem build_keys_nodup (flags : Flags) (snapshots : List ContainerInfo)
    (m : DomainMapping) (h : build flags snapshots = some m) :
    (mapKeys m).Nodup := by
  rw [build_eq] at h
  cases hps : contributions flags snapshots with
  | none => simp [hps] at h
  | some ps =>
    simp only [hps, Option.map_some', Option.some.injEq] at h
    subst h
    exact nodup_applyAll [] ps (by simp [mapKeys])

/-! ### Contributions of containers -/

theorem mem_portUrls (flags : Flags) (ports : List (String × List PortBinding))
    (u : String) :
    u ∈ portUrls flags ports ↔ ∃ entry ∈ ports, entryUrl flags entry = some u := by
  simp [portUrls, List.mem_filterMap]

theorem entryUrl_some (flags : Flags) (entry : String × List PortBinding) (u : String)
    (h : entryUrl flags entry = some u) :
    u ≠ "" ∧ Contains flags.cliPorts (barePort entry.1) = true ∧
      getProxyUrl entry.2 = some u := by
  obtain ⟨spec, bs⟩ := entry
  unfold entryUrl at h
  by_cases hc : Contains flags.cliPorts (barePort spec) = true
  · cases bs with
    | nil => simp [hc] at h
    | cons b bs =>
      simp [hc] at h
      subst h
      exact ⟨bindingUrl_ne_empty b, hc, getProxyUrl_cons b bs⟩
  · simp [hc] at h

theorem contribution_produces (flags : Flags) (c : ContainerInfo)
    (p : String × List String) (h : contribution flags c = some p) :
    ∀ u ∈ p.2, p.1 ≠ "" ∧ u ≠ "" ∧ produces flags c p.1 u := by
  intro u hu
  unfold contribution at h
  cases hd : getContainerEnv flags.cliEnv c.Config.Env with
  | none => simp [hd] at h
  | some d =>
    simp only [hd, Option.map_some', Option.some.injEq] at h
    subst h
    by_cases hlen : d.length ≤ 0
    · simp [hlen] at hu
    · simp only [hlen, if_false] at hu
      obtain ⟨entry, hentry, hurl⟩ := (mem_portUrls _ _ _).1 hu
      obtain ⟨h1, h2, h3⟩ := entryUrl_some flags entry u hurl
      refine ⟨?_, h1, hd, entry, hentry, barePort entry.1, getPort_eq _, h2, h3⟩
      intro hempty
      simp only at hempty
      exact hlen (by simp [hempty])

theorem contributions_mem (flags : Flags) (xs : List ContainerInfo)
    (ps : List (String × List String)) (h : contributions flags xs = some ps) :
    ∀ p ∈ ps, ∃ c ∈ xs, contribution flags c = some p := by
  induction xs generalizing ps with
  | nil =>
    simp only [contributions, Option.some.injEq] at h
    subst h
    simp
  | cons c rest ih =>
    simp only [contributions, Option.bind_eq_bind] at h
    cases hc : contribution flags c with
    | none => simp [hc] at h
    | some q =>
      cases hr : contributions flags rest with
      | none => simp [hc, hr] at h
      | some qs =>
        simp only [hc, hr, Option.some_bind, Option.some.injEq] at h
        subst h
        intro p hp
        rcases List.mem_cons.1 hp with h1 | h1
        · exact ⟨c, List.mem_cons_self _ _, h1 ▸ hc⟩
        · obtain ⟨c', hc', hp'⟩ := ih qs hr p h1
          exact ⟨c', List.mem_cons_of_mem _ hc', hp'⟩

theorem portUrls_remove (flags : Flags) (ps1 ps2 : List (String × List PortBinding))
    (entry : String × List PortBinding) (h : entryUrl flags entry = none) :
    portUrls flags (ps1 ++ entry :: ps2) = portUrls flags (ps1 ++ ps2) := by
  simp [portUrls, List.filterMap_append, List.filterMap_cons, h]

theorem contribution_remove (flags : Flags) (env : List String)
    (ps1 ps2 : List (String × List PortBinding)) (entry : String × List PortBinding)
    (h : entryUrl flags entry = none) :
    contribution flags (snapshot env (ps1 ++ entry :: ps2)) =
      contribution flags (snapshot env (ps1 ++ ps2)) := by
  simp [contribution, snapshot, portUrls_remove flags ps1 ps2 entry h]

theorem build_congr (flags : Flags) (xs ys : List ContainerInfo) (c c' : ContainerInfo)
    (h : contribution flags c = contribution flags c') :
    build flags (xs ++ c :: ys) = build flags (xs ++ c' :: ys) := by
  simp only [build_eq, contributions_append, contributions, h]

theorem build_skip (flags : Flags) (xs ys : List ContainerInfo) (c : ContainerInfo)
    (h : ∀ list, containerBody flags c list = some list) :
    build flags (xs ++ c :: ys) = build flags (xs ++ ys) := by
  simp only [build, buildFrom_append]
  cases buildFrom flags xs [] with
  | none => rfl
  | some l => simp [buildFrom, h]

/-! ### The container loop of `getList` -/

theorem rangeContainers_eq (flags : Flags) (dockerClient : DockerClient)
    (containers : List Container) (snapshots : List ContainerInfo)
    (list : DomainMapping)
    (h : List.Forall₂ (fun c s => (dockerClient.InspectContainer c.Id).1 = some s)
      containers snapshots) :
    rangeContainers flags dockerClient containers list =
      buildFrom flags snapshots list := by
  induction h generalizing list with
  | nil => rfl
  | cons hcs _ ih =>
    simp only [rangeContainers, buildFrom, hcs, Option.bind_eq_bind, Option.some_bind]
    cases containerBody flags _ list with
    | none => rfl
    | some l => simp [ih]

theorem getList_eq_build (flags : Flags)
    (newDockerClient : String → Option DockerClient × Option Error)
    (dockerClient : DockerClient) (containers : List Container)
    (snapshots : List ContainerInfo)
    (hnew : newDockerClient flags.cliEndpoint = (some dockerClient, none))
    (hlist : dockerClient.ListContainers = (containers, none))
    (h : List.Forall₂ (fun c s => (dockerClient.InspectContainer c.Id).1 = some s)
      containers snapshots) :
    getList flags newDockerClient =
      (build flags snapshots).map fun list => (list, none) := by
  simp [getList, hnew, hlist, rangeContainers_eq flags dockerClient containers snapshots [] h,
    build]

/-! ### Visiting orders of a port map -/

theorem urlsFor_eq_flatten (d : String) (ps : List (String × List String)) :
    urlsFor d ps = (blocksFor d ps).flatten := by
  induction ps with
  | nil => rfl
  | cons p ps ih =>
    by_cases h : p.1 = d <;> simp [urlsFor, blocksFor, h, ih]

theorem urlsFor_ne_nil_iff (d : String) (ps : List (String × List String)) :
    urlsFor d ps ≠ [] ↔ ∃ p ∈ ps, p.1 = d ∧ p.2 ≠ [] := by
  induction ps with
  | nil => simp [urlsFor]
  | cons p ps ih =>
    by_cases h : p.1 = d
    · simp only [urlsFor, h, if_true, List.mem_cons, exists_eq_or_imp, true_and]
      rw [← ih]
      simp only [ne_eq, List.append_eq_nil]
      tauto
    · simp only [urlsFor, h, if_false, List.mem_cons, exists_eq_or_imp, false_and,
        false_or]
      exact ih

theorem mem_mapKeys_applyAll_nil (d : String) (ps : List (String × List String)) :
    d ∈ mapKeys (applyAll [] ps) ↔ urlsFor d ps ≠ [] := by
  rw [mem_mapKeys_applyAll, urlsFor_ne_nil_iff]
  simp [mapKeys]

theorem contribution_same (flags : Flags) (a b : ContainerInfo)
    (h : sameSnapshot a b) :
    (contribution flags a = none ↔ contribution flags b = none) ∧
      ∀ p q, contribution flags a = some p → contribution flags b = some q →
        p.1 = q.1 ∧ p.2.Perm q.2 := by
  obtain ⟨henv, hports⟩ := h
  unfold contribution
  rw [← henv]
  cases getContainerEnv flags.cliEnv a.Config.Env with
  | none => simp
  | some d =>
    refine ⟨by simp, ?_⟩
    intro p q hp hq
    simp only [Option.map_some', Option.some.injEq] at hp hq
    subst hp hq
    refine ⟨rfl, ?_⟩
    by_cases hlen : d.length ≤ 0
    · simp [hlen]
    · simp only [hlen, if_false]
      exact hports.filterMap _

theorem contributions_same (flags : Flags) (xs ys : List ContainerInfo)
    (h : List.Forall₂ sameSnapshot xs ys) :
    (contributions flags xs = none ↔ contributions flags ys = none) ∧
      ∀ ps qs, contributions flags xs = some ps → contributions flags ys = some qs →
        List.Forall₂ (fun p q => p.1 = q.1 ∧ p.2.Perm q.2) ps qs := by
  induction h with
  | nil =>
    refine ⟨by simp [contributions], ?_⟩
    intro ps qs hp hq
    simp only [contributions, Option.some.injEq] at hp hq
    subst hp hq
    exact List.Forall₂.nil
  | @cons a b xs ys hab _ ih =>
    obtain ⟨hnone, hsome⟩ := contribution_same flags a b hab
    obtain ⟨ihnone, ihsome⟩ := ih
    simp only [contributions, Option.bind_eq_bind]
    cases ha : contribution flags a with
    | none =>
      have hb := hnone.1 ha
      simp [hb]
    | some p =>
      cases hb : contribution flags b with
      | none => exact absurd (hnone.2 hb) (by simp [ha])
      | some q =>
        cases hx : contributions flags xs with
        | none =>
          have hy := ihnone.1 hx
          simp [hy]
        | some ps =>
          cases hy : contributions flags ys with
          | none => exact absurd (ihnone.2 hy) (by simp [hx])
          | some qs =>
            refine ⟨by simp, ?_⟩
            intro ps' qs' hp hq
            simp only [Option.some_bind, Option.some.injEq] at hp hq
            subst hp hq
            exact List.Forall₂.cons (hsome p q ha hb) (ihsome ps qs hx hy)

theorem blocksFor_same (d : String) (ps qs : List (String × List String))
    (h : List.Forall₂ (fun p q => p.1 = q.1 ∧ p.2.Perm q.2) ps qs) :
    List.Forall₂ List.Perm (blocksFor d ps) (blocksFor d qs) := by
  induction h with
  | nil => exact List.Forall₂.nil
  | @cons p q ps qs hpq _ ih =>
    simp only [blocksFor, List.map_cons]
    refine List.Forall₂.cons ?_ ih
    rw [← hpq.1]
    by_cases hd : p.1 = d
    · simpa [hd] using hpq.2
    · simp [hd]

theorem contributions_length (flags : Flags) (xs : List ContainerInfo)
    (ps : List (String × List String)) (h : contributions flags xs = some ps) :
    ps.length = xs.length := by
  induction xs generalizing ps with
  | nil =>
    simp only [contributions, Option.some.injEq] at h
    subst h
    rfl
  | cons c rest ih =>
    simp only [contributions, Option.bind_eq_bind] at h
    cases hc : contribution flags c with
    | none => simp [hc] at h
    | some q =>
      cases hr : contributions flags rest with
      | none => simp [hc, hr] at h
      | some qs =>
        simp only [hc, hr, Option.some_bind, Option.some.injEq] at h
        subst h
        simp [ih qs hr]

/-! ### Safety of the index expressions that are in range -/

theorem getPort_isSome (exposed : String) : (getPort exposed).isSome = true := by
  simp [getPort_eq]

theorem getProxyUrl_isSome (binding : List PortBinding) :
    (getProxyUrl binding).isSome = true := by
  cases binding with
  | nil => simp [getProxyUrl_nil]
  | cons b rest => simp [getProxyUrl_cons]

/-- An error `getList` returns is the error of `NewDockerClient` or of
`ListContainers`: an error of `InspectContainer` is never returned. -/
theorem getList_error_source (flags : Flags)
    (newDockerClient : String → Option DockerClient × Option Error)
    (list : DomainMapping) (err : Error)
    (h : getList flags newDockerClient = some (list, some err)) :
    (newDockerClient flags.cliEndpoint).2 = some err ∨
      ∃ dockerClient, (newDockerClient flags.cliEndpoint).1 = some dockerClient ∧
        dockerClient.ListContainers.2 = some err := by
  unfold getList at h
  rcases hn : newDockerClient flags.cliEndpoint with ⟨ptr, e⟩
  rw [hn] at h
  cases e with
  | some e =>
    simp only [Option.some.injEq, Prod.mk.injEq] at h
    exact Or.inl (by simp [h.2])
  | none =>
    cases ptr with
    | none => simp at h
    | some dockerClient =>
      rcases hl : dockerClient.ListContainers with ⟨cs, e⟩
      simp only [hl] at h
      cases e with
      | some e =>
        simp only [Option.some.injEq, Prod.mk.injEq] at h
        exact Or.inr ⟨dockerClient, rfl, by rw [hl]; exact congrArg some h.2⟩
      | none =>
        simp only at h
        cases hr : rangeContainers flags dockerClient cs [] with
        | none => simp [hr] at h
        | some l => simp [hr] at h

/-- The records `Push` sends follow the order in which the run time visits the
domain map: visited as built the record of `a.com` comes first, visited in
reverse the record of `b.com` does. -/
theorem Push_visit_order :
    Push defaultFlags (fun _ => (some twoDomainsClient, none)) id (fun _ _ => none) "" =
        some { sent := [([⟨"docker", "a.com", ["http://127.0.0.1:8000"]⟩,
                          ⟨"docker", "b.com", ["http://127.0.0.1:8001"]⟩],
                        "http://localhost:81")],
               err := none } ∧
      Push defaultFlags (fun _ => (some twoDomainsClient, none)) List.reverse
          (fun _ _ => none) "" =
        some { sent := [([⟨"docker", "b.com", ["http://127.0.0.1:8001"]⟩,
                          ⟨"docker", "a.com", ["http://127.0.0.1:8000"]⟩],
                        "http://localhost:81")],
               err := none } := by
  decide

/-- The URLs a container contributes under `d`, from its contribution. -/
theorem containerUrls_eq (flags : Flags) (c : ContainerInfo) (d : String) :
    containerUrls flags c d =
      match contribution flags c with
      | some p => if p.1 = d then p.2 else []
      | none => [] := by
  unfold containerUrls
  rw [build_eq]
  simp only [contributions, Option.bind_eq_bind]
  cases contribution flags c with
  | none => rfl
  | some p =>
    simp only [Option.some_bind, Option.map_some']
    rw [mapIndex_applyAll]
    by_cases h : p.1 = d <;> simp [mapIndex, urlsFor, h]

/-- The blocks of a list of contributions are the URLs of the containers. -/
theorem map_containerUrls (flags : Flags) (xs : List ContainerInfo)
    (ps : List (String × List String)) (d : String)
    (h : contributions flags xs = some ps) :
    (xs.map fun c => containerUrls flags c d) = blocksFor d ps := by
  induction xs generalizing ps with
  | nil =>
    simp only [contributions, Option.some.injEq] at h
    subst h
    rfl
  | cons c rest ih =>
    simp only [contributions, Option.bind_eq_bind] at h
    cases hc : contribution flags c with
    | none => simp [hc] at h
    | some q =>
      cases hr : contributions flags rest with
      | none => simp [hc, hr] at h
      | some qs =>
        simp only [hc, hr, Option.some_bind, Option.some.injEq] at h
        subst h
        have hrest := ih qs hr
        simp only [blocksFor] at hrest
        simp only [List.map_cons, blocksFor, hrest]
        rw [containerUrls_eq, hc]

/-- Two snapshots of one container state contribute the same URLs under every
domain, up to order. -/
theorem containerUrls_same (flags : Flags) (a b : ContainerInfo) (d : String)
    (h : sameSnapshot a b) :
    (containerUrls flags a d).Perm (containerUrls flags b d) := by
  obtain ⟨hnone, hsome⟩ := contribution_same flags a b h
  rw [containerUrls_eq, containerUrls_eq]
  cases ha : contribution flags a with
  | none => simp [hnone.1 ha]
  | some p =>
    cases hb : contribution flags b with
    | none => exact absurd (hnone.2 hb) (by simp [ha])
    | some q =>
      obtain ⟨h1, h2⟩ := hsome p q ha hb
      simp only
      rw [← h1]
      by_cases hd : p.1 = d
      · simpa [hd] using h2
      · simp [hd]

/-! ### The claims -/

/-- C1 (the code differs): for the key `DOMAIN` and the single entry
`DOMAIN=a=b`, `getContainerEnv` returns `a`, the piece between the first and
the second `=`, and not `a=b`, everything after the first `=`; for the entry
`NOT_DOMAIN_BUT_HAS_DOMAIN_SUBSTRING=foo` it returns `foo`. -/
theorem getContainerEnv_second_equals_sign :
    getContainerEnv "DOMAIN" ["DOMAIN=a=b"] = some "a" ∧
      getContainerEnv "DOMAIN" ["DOMAIN=a=b"] ≠ some "a=b" ∧
      getContainerEnv "DOMAIN" ["NOT_DOMAIN_BUT_HAS_DOMAIN_SUBSTRING=foo"] = some "foo" := by
  decide

/-- C2 (the code differs): for a container whose environment holds the entry
`DOMAIN`, without `=`, the split has one element, element 1 is out of range and
the builder panics instead of returning a mapping. -/
theorem build_panics_without_equals_sign :
    Split "DOMAIN" '=' = ["DOMAIN"] ∧
      getContainerEnv defaultFlags.cliEnv bareDomain.Config.Env = none ∧
      build defaultFlags [bareDomain] = none ∧
      getList defaultFlags (fun _ => (some bareDomainClient, none)) = none := by
  decide

/-- C3: for a non-empty binding list `getProxyUrl` returns
`"http://" + ip + ":" + port`, where `port` is the first binding's `HostPort`
and `ip` is `127.0.0.1` when the first binding's `HostIp` is `0.0.0.0` and that
`HostIp` otherwise; the bindings after the first do not affect the result. -/
theorem getProxyUrl_first_binding (binding : List PortBinding) (h : binding ≠ []) :
    getProxyUrl binding =
        some ("http://" ++
          (if (binding.head h).HostIp = "0.0.0.0" then "127.0.0.1"
            else (binding.head h).HostIp) ++ ":" ++ (binding.head h).HostPort) ∧
      ∀ others, getProxyUrl (binding.head h :: others) = getProxyUrl binding := by
  cases binding with
  | nil => exact absurd rfl h
  | cons b rest =>
    refine ⟨by simp [getProxyUrl_cons, bindingUrl], ?_⟩
    intro others
    simp [getProxyUrl_cons]

/-- C3 at the binding list `[{0.0.0.0, 8000}]`: the URL is
`http://127.0.0.1:8000`. -/
theorem getProxyUrl_first_binding_witness :
    ([⟨"0.0.0.0", "8000"⟩] : List PortBinding) ≠ [] ∧
      getProxyUrl [⟨"0.0.0.0", "8000"⟩] = some "http://127.0.0.1:8000" :=
  ⟨by decide, (getProxyUrl_first_binding [⟨"0.0.0.0", "8000"⟩] (by decide)).1.trans (by decide)⟩

/-- C4: a port spec whose bare port (the characters before its first `/`, which
is what `getPort` returns) does not occur in the allowlist string emits no URL,
whatever its binding list: the mapping built is the one built with that entry
removed from the snapshot's port map. -/
theorem port_outside_allowlist_emits_nothing (flags : Flags)
    (xs ys : List ContainerInfo) (env : List String)
    (ps1 ps2 : List (String × List PortBinding)) (spec : String)
    (bindings : List PortBinding)
    (h : Contains flags.cliPorts (barePort spec) = false) :
    getPort spec = some (barePort spec) ∧
      build flags (xs ++ snapshot env (ps1 ++ (spec, bindings) :: ps2) :: ys) =
        build flags (xs ++ snapshot env (ps1 ++ ps2) :: ys) := by
  refine ⟨getPort_eq spec, build_congr flags xs ys _ _ ?_⟩
  exact contribution_remove flags env ps1 ps2 (spec, bindings) (by simp [entryUrl, h])

/-- C4 at the port map `{"80/tcp": [{0.0.0.0, 8000}]}` with the allowlist `443`:
the mapping is empty. -/
theorem port_outside_allowlist_emits_nothing_witness :
    Contains flags443.cliPorts (barePort "80/tcp") = false ∧
      build flags443 [web8000] = some [] :=
  ⟨by decide,
    (port_outside_allowlist_emits_nothing flags443 [] [] ["DOMAIN=example.com"] [] []
      "80/tcp" [⟨"0.0.0.0", "8000"⟩] (by decide)).2.trans (by decide)⟩

/-- C5: a snapshot none of whose environment entries contains the domain key is
excluded: `getContainerEnv` returns the empty string for it, and the mapping
built from a list holding it is the one built from the list without it. -/
theorem container_without_domain_excluded (flags : Flags)
    (xs ys : List ContainerInfo) (c : ContainerInfo)
    (h : ∀ env ∈ c.Config.Env, Contains env flags.cliEnv = false) :
    getContainerEnv flags.cliEnv c.Config.Env = some "" ∧
      build flags (xs ++ c :: ys) = build flags (xs ++ ys) := by
  have hd := getContainerEnv_no_match flags.cliEnv c.Config.Env h
  refine ⟨hd, build_skip flags xs ys c ?_⟩
  intro list
  simp [containerBody, hd]

/-- C5 at the list `web8000, noDomain, web8001`: the middle container has no
entry containing `DOMAIN` and the mapping holds the URLs of the other two. -/
theorem container_without_domain_excluded_witness :
    (∀ env ∈ noDomain.Config.Env, Contains env defaultFlags.cliEnv = false) ∧
      build defaultFlags ([web8000] ++ noDomain :: [web8001]) =
        some [("example.com", ["http://127.0.0.1:8000", "http://127.0.0.1:8001"])] :=
  ⟨by decide,
    (container_without_domain_excluded defaultFlags [web8000] [web8001] noDomain
      (by decide)).2.trans (by decide)⟩

/-- C6: `getProxyUrl` of the empty binding list is the empty string, and a port
spec with an empty binding list adds nothing, whether or not the port passes
the allowlist check: the mapping built is the one built with that entry removed
from the snapshot's port map. -/
theorem empty_binding_list_emits_nothing (flags : Flags)
    (xs ys : List ContainerInfo) (env : List String)
    (ps1 ps2 : List (String × List PortBinding)) (spec : String) :
    getProxyUrl [] = some "" ∧
      build flags (xs ++ snapshot env (ps1 ++ (spec, []) :: ps2) :: ys) =
        build flags (xs ++ snapshot env (ps1 ++ ps2) :: ys) := by
  refine ⟨getProxyUrl_nil, build_congr flags xs ys _ _ ?_⟩
  exact contribution_remove flags env ps1 ps2 (spec, []) (by simp [entryUrl])

/-- C7: URLs are merged by plain append in snapshot order. Building from
`xs ++ ys` completes exactly when building from `xs` and from `ys` both do, and
then for every domain `d` the URL list under `d` is the list built from `xs`
followed by the list built from `ys`, an absent key counting as the empty list. -/
theorem build_append (flags : Flags) (xs ys : List ContainerInfo) :
    (build flags (xs ++ ys) = none ↔ build flags xs = none ∨ build flags ys = none) ∧
      ∀ m1 m2, build flags xs = some m1 → build flags ys = some m2 →
        ∃ m, build flags (xs ++ ys) = some m ∧
          ∀ d, mapIndex m d = mapIndex m1 d ++ mapIndex m2 d := by
  simp only [build_eq, contributions_append]
  cases contributions flags xs with
  | none => simp
  | some a =>
    cases contributions flags ys with
    | none => simp
    | some b =>
      refine ⟨by simp, ?_⟩
      intro m1 m2 h1 h2
      simp only [Option.map_some', Option.some.injEq] at h1 h2
      subst h1 h2
      refine ⟨applyAll [] (a ++ b), by simp, ?_⟩
      intro d
      simp [mapIndex_applyAll, urlsFor_append, mapIndex]

/-- C7 at two containers of domain `example.com` with host ports 8000 and 8001:
the mapping is `example.com` with the two URLs in snapshot order. -/
theorem build_append_witness :
    build defaultFlags ([web8000] ++ [web8001]) =
        some [("example.com", ["http://127.0.0.1:8000", "http://127.0.0.1:8001"])] ∧
      ∃ m, build defaultFlags ([web8000] ++ [web8001]) = some m ∧
        ∀ d, mapIndex m d =
          mapIndex [("example.com", ["http://127.0.0.1:8000"])] d ++
            mapIndex [("example.com", ["http://127.0.0.1:8001"])] d :=
  ⟨by decide,
    (build_append defaultFlags [web8000] [web8001]).2 _ _ (by decide) (by decide)⟩

/-- C8: in the mapping the builder returns every key is a non-empty string, its
URL list is non-empty, and every URL in the list is a non-empty string produced
by a snapshot whose extracted domain is that key; the mapping is empty when no
snapshot produces a URL under a non-empty domain. -/
theorem build_invariant (flags : Flags) (snapshots : List ContainerInfo)
    (m : DomainMapping) (h : build flags snapshots = some m) :
    (∀ e ∈ m, e.1 ≠ "" ∧ e.2 ≠ [] ∧
        ∀ u ∈ e.2, u ≠ "" ∧ ∃ c ∈ snapshots, produces flags c e.1 u) ∧
      ((∀ c ∈ snapshots, ∀ d u, d ≠ "" → ¬ produces flags c d u) → m = []) := by
  rw [build_eq] at h
  cases hps : contributions flags snapshots with
  | none => simp [hps] at h
  | some ps =>
    simp only [hps, Option.map_some', Option.some.injEq] at h
    subst h
    have hinv := entries_applyAll
      (fun d u => d ≠ "" ∧ u ≠ "" ∧ ∃ c ∈ snapshots, produces flags c d u) [] ps
      (by simp)
      (by
        intro p hp u hu
        obtain ⟨c, hc, hcp⟩ := contributions_mem flags snapshots ps hps p hp
        obtain ⟨h1, h2, h3⟩ := contribution_produces flags c p hcp u hu
        exact ⟨h1, h2, c, hc, h3⟩)
    have hall : ∀ e ∈ applyAll [] ps, e.1 ≠ "" ∧ e.2 ≠ [] ∧
        ∀ u ∈ e.2, u ≠ "" ∧ ∃ c ∈ snapshots, produces flags c e.1 u := by
      intro e he
      obtain ⟨hne, hu⟩ := hinv e he
      obtain ⟨u0, hu0⟩ := List.exists_mem_of_ne_nil _ hne
      exact ⟨(hu u0 hu0).1, hne, fun u hu' => (hu u hu').2⟩
    refine ⟨hall, ?_⟩
    intro hnone
    cases hm : applyAll [] ps with
    | nil => rfl
    | cons e rest =>
      have he : e ∈ applyAll [] ps := by rw [hm]; exact List.mem_cons_self _ _
      obtain ⟨hk, hne, hu⟩ := hall e he
      obtain ⟨u0, hu0⟩ := List.exists_mem_of_ne_nil _ hne
      obtain ⟨_, c, hc, hprod⟩ := hu u0 hu0
      exact absurd hprod (hnone c hc e.1 u0 hk)

/-- C8 at the list `web8000, noDomain, web8001`: the one key is `example.com`. -/
theorem build_invariant_witness :
    build defaultFlags [web8000, noDomain, web8001] =
        some [("example.com", ["http://127.0.0.1:8000", "http://127.0.0.1:8001"])] ∧
      ∀ e ∈ [("example.com", ["http://127.0.0.1:8000", "http://127.0.0.1:8001"])],
        e.1 ≠ "" ∧ e.2 ≠ [] ∧
          ∀ u ∈ e.2, u ≠ "" ∧
            ∃ c ∈ [web8000, noDomain, web8001], produces defaultFlags c e.1 u :=
  ⟨by decide, (build_invariant defaultFlags [web8000, noDomain, web8001] _ (by decide)).1⟩

/-- C9 as stated fails: `twoPorts` and `twoPortsSwapped` are the same container
(the same environment list, the same port map), the port map visited in two
orders, and the URL lists built under `example.com` differ in order. -/
theorem build_order_depends_on_visit_order :
    sameSnapshot twoPorts twoPortsSwapped ∧
      build defaultFlags [twoPorts] =
        some [("example.com", ["http://127.0.0.1:8000", "http://127.0.0.1:8001"])] ∧
      build defaultFlags [twoPortsSwapped] =
        some [("example.com", ["http://127.0.0.1:8001", "http://127.0.0.1:8000"])] ∧
      build defaultFlags [twoPorts] ≠ build defaultFlags [twoPortsSwapped] :=
  ⟨⟨rfl, List.Perm.swap _ _ _⟩, by decide, by decide, by decide⟩

/-- C9 amended: two calls on the same containers in the same order, each with
the same environment list and the same port map (visited in any order), with
the same flags, either both panic or return mappings with the same keys. Under
every domain each URL list is the concatenation, in container order, of the URLs
the containers contribute one by one, and what a container contributes in the
two calls is the same up to order; so the two lists hold the same URLs with the
same multiplicities. -/
theorem build_same_snapshots (flags : Flags) (xs ys : List ContainerInfo)
    (h : List.Forall₂ sameSnapshot xs ys) :
    (build flags xs = none ↔ build flags ys = none) ∧
      ∀ m1 m2, build flags xs = some m1 → build flags ys = some m2 →
        ∀ d, (d ∈ mapKeys m1 ↔ d ∈ mapKeys m2) ∧
          (mapIndex m1 d).Perm (mapIndex m2 d) ∧
          mapIndex m1 d = (xs.map fun c => containerUrls flags c d).flatten ∧
          mapIndex m2 d = (ys.map fun c => containerUrls flags c d).flatten ∧
          List.Forall₂
            (fun c c' => (containerUrls flags c d).Perm (containerUrls flags c' d))
            xs ys := by
  obtain ⟨hnone, hsome⟩ := contributions_same flags xs ys h
  simp only [build_eq]
  cases hx : contributions flags xs with
  | none => simp [hnone.1 hx]
  | some ps =>
    cases hy : contributions flags ys with
    | none => exact absurd (hnone.2 hy) (by simp [hx])
    | some qs =>
      refine ⟨by simp, ?_⟩
      intro m1 m2 h1 h2 d
      simp only [Option.map_some', Option.some.injEq] at h1 h2
      subst h1 h2
      have hblocks := blocksFor_same d ps qs (hsome ps qs hx hy)
      have hperm : (urlsFor d ps).Perm (urlsFor d qs) := by
        rw [urlsFor_eq_flatten, urlsFor_eq_flatten]
        exact List.Perm.flatten_congr hblocks
      refine ⟨?_, ?_, ?_, ?_, ?_⟩
      · rw [mem_mapKeys_applyAll_nil, mem_mapKeys_applyAll_nil]
        constructor
        · intro hne hnil
          exact hne (hnil ▸ hperm).eq_nil
        · intro hne hnil
          exact hne (hnil ▸ hperm.symm).eq_nil
      · simpa [mapIndex_applyAll, mapIndex] using hperm
      · rw [map_containerUrls flags xs ps d hx]
        simp [mapIndex_applyAll, mapIndex, urlsFor_eq_flatten]
      · rw [map_containerUrls flags ys qs d hy]
        simp [mapIndex_applyAll, mapIndex, urlsFor_eq_flatten]
      · exact h.imp fun a b hab => containerUrls_same flags a b d hab

/-- C9 amended, at the lists `web8000, twoPorts` and `web8000, twoPortsSwapped`:
under `example.com` the URL of the first container comes first in both lists,
and the two URLs of the second container follow in either order. -/
theorem build_same_snapshots_witness :
    List.Forall₂ sameSnapshot [web8000, twoPorts] [web8000, twoPortsSwapped] ∧
      build defaultFlags [web8000, twoPorts] =
        some [("example.com", ["http://127.0.0.1:8000", "http://127.0.0.1:8000",
          "http://127.0.0.1:8001"])] ∧
      build defaultFlags [web8000, twoPortsSwapped] =
        some [("example.com", ["http://127.0.0.1:8000", "http://127.0.0.1:8001",
          "http://127.0.0.1:8000"])] ∧
      mapIndex [("example.com", ["http://127.0.0.1:8000", "http://127.0.0.1:8000",
          "http://127.0.0.1:8001"])] "example.com" =
        ([web8000, twoPorts].map fun c =>
          containerUrls defaultFlags c "example.com").flatten ∧
      mapIndex [("example.com", ["http://127.0.0.1:8000", "http://127.0.0.1:8001",
          "http://127.0.0.1:8000"])] "example.com" =
        ([web8000, twoPortsSwapped].map fun c =>
          containerUrls defaultFlags c "example.com").flatten ∧
      List.Forall₂
        (fun c c' => (containerUrls defaultFlags c "example.com").Perm
          (containerUrls defaultFlags c' "example.com"))
        [web8000, twoPorts] [web8000, twoPortsSwapped] :=
  ⟨List.Forall₂.cons ⟨rfl, List.Perm.refl _⟩
      (List.Forall₂.cons ⟨rfl, List.Perm.swap _ _ _⟩ List.Forall₂.nil),
    by decide, by decide,
    ((build_same_snapshots defaultFlags [web8000, twoPorts] [web8000, twoPortsSwapped]
      (List.Forall₂.cons ⟨rfl, List.Perm.refl _⟩
        (List.Forall₂.cons ⟨rfl, List.Perm.swap _ _ _⟩ List.Forall₂.nil))).2 _ _
        (by decide) (by decide) "example.com").2.2⟩

/-- C10 (the code differs): when listing succeeds and the inspection of the
listed container fails, `getList` does not return the error: the error is
assigned to the blank identifier, the nil pointer is dereferenced and the call
panics, and so does `Push`. A failure of the listing is returned by both. -/
theorem getList_inspect_error_panics :
    (inspectFails.InspectContainer "c1").2 = some "no such container" ∧
      getList defaultFlags (fun _ => (some inspectFails, none)) = none ∧
      (∀ visit send m,
        Push defaultFlags (fun _ => (some inspectFails, none)) visit send m = none) ∧
      getList defaultFlags (fun _ => (some listFails, none)) =
        some ([], some "cannot connect") ∧
      (∀ visit send m,
        Push defaultFlags (fun _ => (some listFails, none)) visit send m =
          some { sent := [], err := some "cannot connect" }) :=
  ⟨rfl, rfl, fun _ _ _ => rfl, rfl, fun _ _ _ => rfl⟩

end MarcoDocker
